import Mathlib

/-!
Shallow embedding of `kitten/__init__.py` (hoffa/awsutil): a small fan-out
executor that runs a shell command, uploads or downloads a file on a list of
remote hosts through a fixed-size worker pool draining a shared task queue,
plus helpers resolving AWS identifiers (instance IDs, autoscaling groups,
load balancers) to IP addresses.

Pure helpers become Lean functions; the AWS API calls (boto3) are modelled as
queries over an explicit environment value; the threaded worker pool becomes a
labelled small-step transition relation over an explicit pool state, with a
nondeterministic scheduler and an oracle saying which tasks raise an exception
when executed.
-/

namespace Kitten

/-- Translation of `CHUNK_SIZE = 100`. -/
def CHUNK_SIZE : Nat := 100

/-- Translation of `chunks(l, n)`: `for i in range(0, len(l), n): yield l[i : i + n]`.
For `0 < n` the slices `l[i:i+n]` at `i = 0, n, 2n, ...` are exactly the
groups produced by repeatedly taking and dropping `n` elements, which is how we
recurse here.  Python `range` with step `0` raises `ValueError`; the guard
`0 < n` makes that branch return `[]` in the model (no claim touches it). -/
def chunks : List α → Nat → List (List α)
  | [], _ => []
  | _ :: _, 0 => []
  | x :: xs, n + 1 => (x :: xs).take (n + 1) :: chunks ((x :: xs).drop (n + 1)) (n + 1)
termination_by l _ => l.length
decreasing_by
  simp only [List.drop_succ_cons, List.length_drop, List.length_cons]
  omega

/-- One EC2 instance as seen through the AWS environment: `boto3` exposes
`instance.public_ip_address` (possibly `None`) and
`instance.private_ip_address`. -/
structure Instance where
  instance_id : String
  public_ip_address : Option String
  private_ip_address : String
deriving DecidableEq

/-- One autoscaling group: a name and the instance IDs of its `Instances`. -/
structure Asg where
  name : String
  instances : List String
deriving DecidableEq

/-- One classic load balancer: a name and the instance IDs of its registered
`Instances`. -/
structure Elb where
  name : String
  instances : List String
deriving DecidableEq

/-- The AWS world the boto3 calls query: all instances, autoscaling groups and
load balancers of the region. -/
structure AwsEnv where
  instances : List Instance
  asgs : List Asg
  elbs : List Elb
deriving DecidableEq

/-- Translation of `instance_ids_to_ips(resource, instance_ids)`: filtering
`resource.instances` on the `instance-id` filter keeps exactly the instances
whose ID is among `instance_ids`; each yields its public/private IP pair. -/
def instance_ids_to_ips (env : AwsEnv) (instance_ids : List String) :
    List (Option String × String) :=
  (env.instances.filter (fun inst => decide (inst.instance_id ∈ instance_ids))).map
    (fun inst => (inst.public_ip_address, inst.private_ip_address))

/-- Translation of `asgs_to_instance_ids(client, asg_names)`:
`describe_auto_scaling_groups(AutoScalingGroupNames=asg_names)` returns the
groups so named; the function yields every `InstanceId` of each. -/
def asgs_to_instance_ids (env : AwsEnv) (asg_names : List String) : List String :=
  (env.asgs.filter (fun g => decide (g.name ∈ asg_names))).flatMap (fun g => g.instances)

/-- Translation of `elbs_to_instance_ids(client, elb_names)`:
`describe_load_balancers(LoadBalancerNames=elb_names)` returns the load
balancers so named; the function yields every `InstanceId` of each. -/
def elbs_to_instance_ids (env : AwsEnv) (elb_names : List String) : List String :=
  (env.elbs.filter (fun e => decide (e.name ∈ elb_names))).flatMap (fun e => e.instances)

/-- Python truthiness of an optional string: `None` and `""` are falsy. -/
def truthy : Option String → Bool
  | none => false
  | some s => decide (s ≠ "")

/-- Python `a and b` where `a` is the boolean `public` flag and `b` an optional
string: if `a` is falsy the result is `a` itself (falsy, modelled `none`),
otherwise `b`. -/
def pyAnd (a : Bool) (b : Option String) : Option String :=
  if a then b else none

/-- Python `x or y` where `x` is an optional string and `y` a string: the
result is `x`-s value when `x` is truthy, else `y`. -/
def pyOr (x : Option String) (y : String) : String :=
  match x with
  | none => y
  | some s => if s = "" then y else s

/-- Translation of `print_ips(client, instance_ids, public, region_name)`: for
each chunk of at most `CHUNK_SIZE` IDs, log
`public and ip["public"] or ip["private"]` for every resolved instance.  The
returned list is the sequence of logged lines. -/
def print_ips (env : AwsEnv) (instance_ids : List String) (public : Bool) :
    List String :=
  (chunks instance_ids CHUNK_SIZE).flatMap
    (fun chunk =>
      (instance_ids_to_ips env chunk).map
        (fun p => pyOr (pyAnd public p.1) p.2))

/-- Translation of `ip(values, kind, public, region_name)`: resolve `values`
to instance IDs according to `kind` and print their IPs.  A `kind` outside
`id`/`asg`/`elb` leaves `instance_ids` unbound in Python (a `NameError`),
modelled as `none`; `argparse` restricts `kind` to those three choices. -/
def ip (env : AwsEnv) (values : List String) (kind : String) (public : Bool) :
    Option (List String) :=
  if kind = "id" then
    some (print_ips env values public)
  else if kind = "asg" then
    some (print_ips env (asgs_to_instance_ids env values) public)
  else if kind = "elb" then
    some (print_ips env (elbs_to_instance_ids env values) public)
  else
    none

/-- The IP that `print_ips` logs for one instance, stated directly: the public
IP when `public` is requested and a non-empty public IP exists, otherwise the
private IP.  Spec-side restatement, to be compared with the
`pyOr (pyAnd ..) ..` chain of the source. -/
def selectIp (public : Bool) (pub : Option String) (priv : String) : String :=
  match public, pub with
  | false, _ => priv
  | true, none => priv
  | true, some s => if s = "" then priv else s

/-- Translation of `os.path.basename` for POSIX paths as used by `get`: the
part of the path after the last slash. -/
def basename (p : String) : String :=
  (p.splitOn ("/")).getLastD ("")

/-- The fragment of the local filesystem `get` touches: existing directories
and existing files, by path. -/
structure FsState where
  dirs : List String
  files : List String
deriving DecidableEq

/-- Translation of `get(conn, remote)` (successful-download path): compute
`local = conn.host + "/" + os.path.basename(remote)`, `os.mkdir(conn.host)`
ignoring `OSError` when the directory already exists, then download `remote`
to `local`.  Returns the filesystem after the call and the local path used. -/
def get (fs : FsState) (host remote : String) : FsState × String :=
  let localPath := host ++ "/" ++ basename remote
  let fs1 : FsState :=
    { fs with dirs := if host ∈ fs.dirs then fs.dirs else host :: fs.dirs }
  ({ fs1 with files := localPath :: fs1.files }, localPath)

/-- A `fabric.Connection` as built by `get_tasks`: host plus the connection
keyword arguments taken from the parsed arguments. -/
structure Conn where
  host : String
  user : String
  connect_timeout : Nat
  key_filename : Option String
deriving DecidableEq

/-- The remote operation a task performs: `run(conn, command, sudo)`,
`get(conn, remote)` or `put(conn, local, remote)`. -/
inductive RemoteOp where
  | runCmd (command : String) (sudoFlag : Bool)
  | getFile (remote : String)
  | putFile (localFile : String) (remote : String)
deriving DecidableEq

/-- One enqueued task: the `functools.partial` closures of `get_tasks` are a
connection together with the operation and its captured arguments. -/
structure TaskC where
  conn : Conn
  op : RemoteOp
deriving DecidableEq

/-- The parsed command-line arguments that `get_tasks` and `main` read.  Only
the fields the dispatcher uses are modelled; `argparse` guarantees `hosts` is
non-empty (`nargs="+"`) and `tool` is one of the subcommands. -/
structure Args where
  tool : String
  hosts : List String
  user : String
  timeout : Nat
  i : Option String
  command : String
  sudoFlag : Bool
  localFile : String
  remote : String
  threads : Nat
deriving DecidableEq

/-- Translation of `get_tasks(args)`: build one `fabric.Connection` per host in
the order of `args.hosts`, then one partial application of `run`/`get`/`put`
per connection according to `args.tool`.  Python falls off the end (returns
`None`) for any other tool, modelled as `none`. -/
def get_tasks (args : Args) : Option (List TaskC) :=
  let conns : List Conn := args.hosts.map
    (fun host =>
      { host := host
        user := args.user
        connect_timeout := args.timeout
        key_filename := args.i })
  if args.tool = "run" then
    some (conns.map (fun conn => { conn := conn, op := .runCmd args.command args.sudoFlag }))
  else if args.tool = "get" then
    some (conns.map (fun conn => { conn := conn, op := .getFile args.remote }))
  else if args.tool = "put" then
    some (conns.map (fun conn => { conn := conn, op := .putFile args.localFile args.remote }))
  else
    none

/-- The operation the spec expects every task of an invocation to carry,
determined by the tool: spec-side restatement used to compare against
`get_tasks`. -/
def toolOp (args : Args) : Option RemoteOp :=
  if args.tool = "run" then some (.runCmd args.command args.sudoFlag)
  else if args.tool = "get" then some (.getFile args.remote)
  else if args.tool = "put" then some (.putFile args.localFile args.remote)
  else none

/-- Observable dispatcher events of `main` on the run/get/put path: building a
task closure (inside `get_tasks`), enqueuing it (`tasks.put_nowait`), starting
a worker thread (`threading.Thread(...).start()`), joining one
(`thread.flatten`). -/
inductive Event where
  | build (t : TaskC)
  | enqueue (t : TaskC)
  | spawnWorker (k : Nat)
  | joinWorker (k : Nat)
deriving DecidableEq

/-- Whether an event is a task build. -/
def isBuild : Event → Bool
  | .build _ => true
  | _ => false

/-- Whether an event is an enqueue. -/
def isEnqueue : Event → Bool
  | .enqueue _ => true
  | _ => false

/-- Whether an event is a worker-thread start. -/
def isSpawn : Event → Bool
  | .spawnWorker _ => true
  | _ => false

/-- Whether an event is a worker join. -/
def isJoin : Event → Bool
  | .joinWorker _ => true
  | _ => false

/-- Translation of `run_workers(num_workers)` as its event sequence: a first
loop starts every thread, a second loop joins each one in start order. -/
def run_workers_events (num_workers : Nat) : List Event :=
  (List.range num_workers).map Event.spawnWorker
    ++ (List.range num_workers).map Event.joinWorker

/-- The worker count `main` passes to `run_workers`:
`min(args.threads, len(args.hosts))`. -/
def num_workers (args : Args) : Nat :=
  min args.threads args.hosts.length

/-- Translation of the run/get/put branch of `main` as its event sequence,
given the task list `ts` returned by `get_tasks`: the list comprehension in
`get_tasks` builds every closure before returning, the `for` loop then
enqueues each with `put_nowait`, and `run_workers` starts and joins the
workers. -/
def mainEvents (args : Args) (ts : List TaskC) : List Event :=
  ts.map Event.build ++ ts.map Event.enqueue ++ run_workers_events (num_workers args)

/-- Why a worker's loop ended: it observed the stop flag, it observed the
queue empty (`queue.Empty` from `get_nowait`), or the task it was executing
raised an exception that propagated out of `worker` (only `queue.Empty` is
caught there). -/
inductive ExitReason where
  | sawStop
  | sawEmpty
  | taskRaised
deriving DecidableEq

/-- Status of one worker thread. -/
inductive WStatus where
  | running
  | finished (reason : ExitReason)
deriving DecidableEq

/-- Shared state of the dispatcher: the module-level `tasks` queue and `stop`
event, the worker threads, and (history variable) the tasks whose execution
has begun, in execution order. -/
structure PoolState (α : Type) where
  queue : List α
  stop : Bool
  workers : List WStatus
  executed : List α
deriving DecidableEq

/-- Labels of pool transitions: a worker begins executing a dequeued task, a
worker's loop exits, or the main thread sets the stop flag on
`KeyboardInterrupt`. -/
inductive PoolLabel (α : Type) where
  | beginTask (i : Nat) (t : α)
  | exitWorker (i : Nat) (reason : ExitReason)
  | setStop
deriving DecidableEq

/-- One atomic step of the pool.  Each loop iteration of `worker()` is one
step: check `stop.is_set()`; then `tasks.get_nowait()`, breaking on
`queue.Empty`; then `task()`, which either returns (and `task_done` is called)
or raises, killing the thread.  `raises t` is the oracle telling whether
executing task `t` raises.  `interrupt` is `stop.set()` in `main`'s
`KeyboardInterrupt` handler. -/
inductive PoolStep (raises : α → Bool) :
    PoolState α → PoolLabel α → PoolState α → Prop where
  | seeStop (s : PoolState α) (i : Nat)
      (hi : s.workers[i]? = some .running) (hs : s.stop = true) :
      PoolStep raises s (.exitWorker i .sawStop)
        { s with workers := s.workers.set i (.finished .sawStop) }
  | seeEmpty (s : PoolState α) (i : Nat)
      (hi : s.workers[i]? = some .running) (hs : s.stop = false)
      (hq : s.queue = []) :
      PoolStep raises s (.exitWorker i .sawEmpty)
        { s with workers := s.workers.set i (.finished .sawEmpty) }
  | execOk (s : PoolState α) (i : Nat) (t : α) (rest : List α)
      (hi : s.workers[i]? = some .running) (hs : s.stop = false)
      (hq : s.queue = t :: rest) (hr : raises t = false) :
      PoolStep raises s (.beginTask i t)
        { s with queue := rest, executed := s.executed ++ [t] }
  | execRaise (s : PoolState α) (i : Nat) (t : α) (rest : List α)
      (hi : s.workers[i]? = some .running) (hs : s.stop = false)
      (hq : s.queue = t :: rest) (hr : raises t = true) :
      PoolStep raises s (.beginTask i t)
        { s with queue := rest, executed := s.executed ++ [t],
                 workers := s.workers.set i (.finished .taskRaised) }
  | interrupt (s : PoolState α) :
      PoolStep raises s .setStop { s with stop := true }

/-- A finite execution of the pool: the reflexive-transitive closure of
`PoolStep`, recording the labels. -/
inductive PoolTrace (raises : α → Bool) :
    PoolState α → List (PoolLabel α) → PoolState α → Prop where
  | refl (s : PoolState α) : PoolTrace raises s [] s
  | step {s s₁ s₂ : PoolState α} {l : PoolLabel α} {ls : List (PoolLabel α)}
      (h₁ : PoolStep raises s l s₁) (h₂ : PoolTrace raises s₁ ls s₂) :
      PoolTrace raises s (l :: ls) s₂

/-- The pool state right after `main` has enqueued every task and
`run_workers` has started `n` worker threads. -/
def initPool (ts : List α) (n : Nat) : PoolState α :=
  { queue := ts, stop := false, workers := List.replicate n .running, executed := [] }

/-- All worker threads have terminated: the condition under which the join
loop of `run_workers` returns. -/
def allFinished (s : PoolState α) : Prop :=
  ∀ w ∈ s.workers, w ≠ WStatus.running

/-- Invariant of a drain in which the stop flag is never set and no task
raises: the flag is down, the executed tasks followed by the queued ones are
exactly the enqueued list, every worker is either running or exited on an
empty queue, and once some worker has seen the queue empty it is empty for
good. -/
def DrainInv (ts : List α) (s : PoolState α) : Prop :=
  s.stop = false ∧
  s.executed ++ s.queue = ts ∧
  (∀ w ∈ s.workers, w = WStatus.running ∨ w = WStatus.finished .sawEmpty) ∧
  (WStatus.finished .sawEmpty ∈ s.workers → s.queue = [])

/-- A concrete parsed `run` invocation, used to exercise the dispatcher
lemmas on explicit inputs. -/
def argsEx : Args :=
  { tool := "run"
    hosts := ["10.0.0.1", "10.0.0.2"]
    user := "ubuntu"
    timeout := 15
    i := none
    command := "uptime"
    sudoFlag := false
    localFile := ""
    remote := ""
    threads := 10 }

/-- The task list `get_tasks` builds for `argsEx`. -/
def tsEx : List TaskC :=
  (get_tasks argsEx).getD []

/-- An empty local filesystem. -/
def fsEx : FsState :=
  { dirs := [], files := [] }

/-- An empty AWS environment. -/
def envEx : AwsEnv :=
  { instances := [], asgs := [], elbs := [] }

/-- Pool state with one worker and two queued tasks, the first of which raises
(`Bool` tasks, the oracle being the task itself). -/
def cexInit : PoolState Bool :=
  { queue := [true, false], stop := false, workers := [.running], executed := [] }

/-- The state after the single worker of `cexInit` executes the raising task:
the exception propagates out of `worker`, the thread dies, and the second task
is stranded on the queue. -/
def cexFinal : PoolState Bool :=
  { queue := [false], stop := false, workers := [.finished .taskRaised]
    executed := [true] }

/-- Final state of a clean drain of two non-raising tasks by one worker. -/
def drainFinal : PoolState Bool :=
  { queue := [], stop := false, workers := [.finished .sawEmpty]
    executed := [false, false] }

theorem chunks_nil (n : Nat) : chunks ([] : List α) n = [] := by
  cases n <;> simp [chunks]

theorem chunks_cons (x : α) (xs : List α) (n : Nat) :
    chunks (x :: xs) (n + 1) =
      (x :: xs).take (n + 1) :: chunks ((x :: xs).drop (n + 1)) (n + 1) := by
  rw [chunks]

theorem chunks_flatten_of_le (n : Nat) :
    ∀ (k : Nat) (l : List α), l.length ≤ k → (chunks l (n + 1)).flatten = l := by
  intro k
  induction k with
  | zero =>
    intro l hl
    have hnil : l = [] := List.eq_nil_of_length_eq_zero (Nat.le_zero.mp hl)
    subst hnil
    simp [chunks_nil]
  | succ k ih =>
    intro l hl
    cases l with
    | nil => simp [chunks_nil]
    | cons x xs =>
      rw [chunks_cons, List.flatten_cons,
        ih ((x :: xs).drop (n + 1)) (by simp at hl ⊢; omega),
        List.take_append_drop]

theorem chunks_flatten (n : Nat) (hn : 0 < n) (l : List α) : (chunks l n).flatten = l := by
  obtain ⟨m, rfl⟩ : ∃ m, n = m + 1 := ⟨n - 1, by omega⟩
  exact chunks_flatten_of_le m l.length l (Nat.le_refl _)

theorem chunks_shape_of_le (n : Nat) :
    ∀ (k : Nat) (l : List α), l.length ≤ k →
      ∀ c ∈ chunks l (n + 1), c ≠ [] ∧ c.length ≤ n + 1 := by
  intro k
  induction k with
  | zero =>
    intro l hl
    have hnil : l = [] := List.eq_nil_of_length_eq_zero (Nat.le_zero.mp hl)
    subst hnil
    simp [chunks_nil]
  | succ k ih =>
    intro l hl c hc
    cases l with
    | nil => simp [chunks_nil] at hc
    | cons x xs =>
      rw [chunks_cons] at hc
      rcases List.mem_cons.mp hc with rfl | hc
      · constructor
        · simp
        · simp
      · exact ih ((x :: xs).drop (n + 1)) (by simp at hl ⊢; omega) c hc

theorem chunks_shape (n : Nat) (hn : 0 < n) (l : List α) :
    ∀ c ∈ chunks l n, c ≠ [] ∧ c.length ≤ n := by
  obtain ⟨m, rfl⟩ : ∃ m, n = m + 1 := ⟨n - 1, by omega⟩
  exact chunks_shape_of_le m l.length l (Nat.le_refl _)

/-- C8: for every list `l` and every `n > 0`, concatenating the output of
`chunks l n` in order yields `l`, and every produced chunk is non-empty with
length at most `n`; consequently `print_ips` partitions its instance IDs into
batches of at most `CHUNK_SIZE = 100` covering every instance ID exactly
once. -/
theorem C8_chunks_partition {α : Type} (l : List α) (n : Nat) (hn : 0 < n) :
    (chunks l n).flatten = l ∧
    (∀ c ∈ chunks l n, c ≠ [] ∧ c.length ≤ n) ∧
    CHUNK_SIZE = 100 ∧
    (chunks l CHUNK_SIZE).flatten = l ∧
    (∀ c ∈ chunks l CHUNK_SIZE, c.length ≤ 100) := by
  refine ⟨chunks_flatten n hn l, chunks_shape n hn l, rfl, chunks_flatten _ (by decide) l, ?_⟩
  intro c hc
  exact (chunks_shape CHUNK_SIZE (by decide) l c hc).2

/-- Witness for C8 at a concrete list and chunk size. -/
theorem C8_chunks_partition_witness :
    (chunks [1, 2, 3, 4, 5] 2).flatten = [1, 2, 3, 4, 5] :=
  (C8_chunks_partition [1, 2, 3, 4, 5] 2 (by decide)).1

theorem pyOr_pyAnd_eq_selectIp (public : Bool) (pub : Option String) (priv : String) :
    pyOr (pyAnd public pub) priv = selectIp public pub priv := by
  cases public <;> cases pub <;> simp [pyOr, pyAnd, selectIp]

/-- C9: `print_ips` logs, for every resolved instance, the private IP when
`public = false`, and when `public = true` the public IP if it is present and
non-empty, falling back to the private IP when the public IP is `None` or
empty. -/
theorem C9_public_ip_fallback (env : AwsEnv) (instance_ids : List String) (public : Bool) :
    print_ips env instance_ids public =
      (chunks instance_ids CHUNK_SIZE).flatMap
        (fun chunk => (instance_ids_to_ips env chunk).map
          (fun p => selectIp public p.1 p.2)) ∧
    (∀ pub priv, selectIp false pub priv = priv) ∧
    (∀ s priv, s ≠ "" → selectIp true (some s) priv = s) ∧
    (∀ priv, selectIp true none priv = priv) ∧
    (∀ priv, selectIp true (some ("")) priv = priv) := by
  refine ⟨?_, ?_, ?_, ?_, ?_⟩
  · simp [print_ips, pyOr_pyAnd_eq_selectIp]
  · intro pub priv; rfl
  · intro s priv hs; simp [selectIp, hs]
  · intro priv; rfl
  · intro priv; simp [selectIp]

/-- Witness for C9: a non-empty public IP is printed when requested. -/
theorem C9_public_ip_fallback_witness :
    selectIp true (some ("203.0.113.7")) ("10.0.0.1") = "203.0.113.7" :=
  (C9_public_ip_fallback envEx [] true).2.2.1 ("203.0.113.7") ("10.0.0.1") (by decide)

theorem append_basename_inj (h₁ h₂ b : String)
    (heq : h₁ ++ "/" ++ b = h₂ ++ "/" ++ b) : h₁ = h₂ := by
  have hd := congrArg String.data heq
  simp only [String.data_append, List.append_assoc] at hd
  exact String.ext (List.append_cancel_right hd)

/-- C10: `get` stores the download of `remote` from `host` at the local path
`host ++ "/" ++ basename remote`, inside a per-host directory that exists
after the call, so downloads of the same remote file from different hosts land
at distinct local paths. -/
theorem C10_get_local_path (fs : FsState) (host remote : String) :
    (get fs host remote).2 = host ++ "/" ++ basename remote ∧
    host ∈ (get fs host remote).1.dirs ∧
    (get fs host remote).2 ∈ (get fs host remote).1.files ∧
    (∀ host₂, host ≠ host₂ → (get fs host remote).2 ≠ (get fs host₂ remote).2) := by
  refine ⟨rfl, ?_, ?_, ?_⟩
  · by_cases hmem : host ∈ fs.dirs <;> simp [get, hmem]
  · simp [get]
  · intro host₂ hne heq
    simp only [get] at heq
    exact hne (append_basename_inj host host₂ (basename remote) heq)

/-- Witness for C10: the same file fetched from two different hosts goes to
two different local paths. -/
theorem C10_get_local_path_witness :
    (get fsEx ("10.0.0.1") ("/var/log/syslog")).2 ≠ (get fsEx ("10.0.0.2") ("/var/log/syslog")).2 :=
  (C10_get_local_path fsEx ("10.0.0.1") ("/var/log/syslog")).2.2.2 ("10.0.0.2") (by decide)

/-- C7: `ip` uses the given values directly as instance IDs for kind `id`,
resolves autoscaling-group names to the instance IDs of all their instances
for kind `asg`, resolves load-balancer names to the instance IDs of all their
registered instances for kind `elb`, and in each case prints the IPs of the
resolved instance IDs via `print_ips`. -/
theorem C7_ip_resolution (env : AwsEnv) (values : List String) (public : Bool) :
    ip env values ("id") public = some (print_ips env values public) ∧
    ip env values ("asg") public =
      some (print_ips env (asgs_to_instance_ids env values) public) ∧
    ip env values ("elb") public =
      some (print_ips env (elbs_to_instance_ids env values) public) ∧
    (∀ iid, iid ∈ asgs_to_instance_ids env values ↔
      ∃ g ∈ env.asgs, g.name ∈ values ∧ iid ∈ g.instances) ∧
    (∀ iid, iid ∈ elbs_to_instance_ids env values ↔
      ∃ e ∈ env.elbs, e.name ∈ values ∧ iid ∈ e.instances) := by
  refine ⟨rfl, rfl, rfl, ?_, ?_⟩
  · intro iid
    simp only [asgs_to_instance_ids, List.mem_flatMap, List.mem_filter,
      decide_eq_true_eq]
    tauto
  · intro iid
    simp only [elbs_to_instance_ids, List.mem_flatMap, List.mem_filter,
      decide_eq_true_eq]
    tauto

theorem get_tasks_eq (args : Args) (op : RemoteOp) (hop : toolOp args = some op) :
    get_tasks args = some (args.hosts.map (fun host =>
      { conn := { host := host, user := args.user, connect_timeout := args.timeout,
                  key_filename := args.i },
        op := op })) := by
  by_cases h1 : args.tool = "run"
  · simp only [toolOp, h1, if_pos] at hop
    obtain rfl := Option.some.inj hop
    simp [get_tasks, h1, List.map_map, Function.comp]
  · by_cases h2 : args.tool = "get"
    · simp only [toolOp, h1, h2, if_pos, if_neg, ite_false, ite_true] at hop
      obtain rfl := Option.some.inj hop
      simp [get_tasks, h1, h2, List.map_map, Function.comp]
    · by_cases h3 : args.tool = "put"
      · simp only [toolOp, h1, h2, h3, if_pos, if_neg, ite_false, ite_true] at hop
        obtain rfl := Option.some.inj hop
        simp [get_tasks, h1, h2, h3, List.map_map, Function.comp]
      · simp [toolOp, h1, h2, h3] at hop

theorem get_tasks_some_length {args : Args} {ts : List TaskC}
    (h : get_tasks args = some ts) : ts.length = args.hosts.length := by
  unfold get_tasks at h
  split_ifs at h <;> simp_all
  all_goals (subst h; simp)

/-- C1: for every tool among run/get/put and non-empty host list, `get_tasks`
returns one task per host in the order of `args.hosts`, each task pairing the
connection to that host with the single remote operation selected by the
tool. -/
theorem C1_one_task_per_host (args : Args)
    (htool : args.tool = "run" ∨ args.tool = "get" ∨ args.tool = "put")
    (hhosts : args.hosts ≠ []) :
    ∃ ts, get_tasks args = some ts ∧ ts ≠ [] ∧ ts.length = args.hosts.length ∧
      ∀ (k : Nat) (t : TaskC), ts[k]? = some t →
        some t.conn.host = args.hosts[k]? ∧ some t.op = toolOp args := by
  have hop : ∃ op, toolOp args = some op := by
    rcases htool with h | h | h
    · exact ⟨RemoteOp.runCmd args.command args.sudoFlag, by simp [toolOp, h]⟩
    · exact ⟨RemoteOp.getFile args.remote, by simp [toolOp, h]⟩
    · exact ⟨RemoteOp.putFile args.localFile args.remote, by simp [toolOp, h]⟩
  obtain ⟨op, hop⟩ := hop
  refine ⟨_, get_tasks_eq args op hop, ?_, by simp, ?_⟩
  · intro hc
    apply hhosts
    have hlen := congrArg List.length hc
    simp only [List.length_map, List.length_nil] at hlen
    exact List.eq_nil_of_length_eq_zero hlen
  · intro k t ht
    rw [List.getElem?_map] at ht
    cases hh : args.hosts[k]? with
    | none => rw [hh] at ht; simp at ht
    | some host =>
      rw [hh] at ht
      obtain rfl := Option.some.inj ht
      exact ⟨rfl, hop.symm⟩

/-- Witness for C1 at a concrete two-host `run` invocation. -/
theorem C1_one_task_per_host_witness :
    ∃ ts, get_tasks argsEx = some ts ∧ ts ≠ [] ∧ ts.length = argsEx.hosts.length ∧
      ∀ (k : Nat) (t : TaskC), ts[k]? = some t →
        some t.conn.host = argsEx.hosts[k]? ∧ some t.op = toolOp argsEx :=
  C1_one_task_per_host argsEx (Or.inl rfl) (by simp [argsEx])

theorem idx_lt_of_pred_absent_right {l₁ l₂ : List Event} {p : Event → Bool}
    {i : Nat} {e : Event} (h : (l₁ ++ l₂)[i]? = some e) (hp : p e = true)
    (habs : ∀ x ∈ l₂, p x = false) : i < l₁.length := by
  by_contra hge
  rw [List.getElem?_append_right (Nat.le_of_not_lt hge)] at h
  have hf := habs e (List.getElem?_mem h)
  rw [hf] at hp
  simp at hp

theorem idx_ge_of_pred_absent_left {l₁ l₂ : List Event} {p : Event → Bool}
    {j : Nat} {e : Event} (h : (l₁ ++ l₂)[j]? = some e) (hp : p e = true)
    (habs : ∀ x ∈ l₁, p x = false) : l₁.length ≤ j := by
  by_contra hlt
  rw [List.getElem?_append_left (Nat.lt_of_not_le hlt)] at h
  have hf := habs e (List.getElem?_mem h)
  rw [hf] at hp
  simp at hp

theorem run_workers_events_shape {n : Nat} {x : Event}
    (hx : x ∈ run_workers_events n) : isBuild x = false ∧ isEnqueue x = false := by
  simp only [run_workers_events, List.mem_append, List.mem_map] at hx
  rcases hx with ⟨k, _, rfl⟩ | ⟨k, _, rfl⟩ <;> exact ⟨rfl, rfl⟩

/-- C6: on the run/get/put path, `main` builds one task per host, enqueues
every task, starts the workers, then joins them, in that order: every build
event precedes every enqueue event, every enqueue event precedes every
worker-thread start, and every start precedes every join. -/
theorem C6_dispatcher_order (args : Args) (ts : List TaskC)
    (hts : get_tasks args = some ts) :
    (mainEvents args ts).countP isBuild = args.hosts.length ∧
    (mainEvents args ts).countP isEnqueue = args.hosts.length ∧
    (mainEvents args ts).countP isSpawn = num_workers args ∧
    (mainEvents args ts).countP isJoin = num_workers args ∧
    (∀ (i j : Nat) (e₁ e₂ : Event),
      (mainEvents args ts)[i]? = some e₁ → (mainEvents args ts)[j]? = some e₂ →
      (isBuild e₁ = true → isEnqueue e₂ = true → i < j) ∧
      (isEnqueue e₁ = true → isSpawn e₂ = true → i < j) ∧
      (isSpawn e₁ = true → isJoin e₂ = true → i < j)) := by
  have hlen := get_tasks_some_length hts
  refine ⟨?_, ?_, ?_, ?_, ?_⟩
  · simp [mainEvents, run_workers_events, List.countP_append, List.countP_map,
      Function.comp_def, isBuild, hlen]
  · simp [mainEvents, run_workers_events, List.countP_append, List.countP_map,
      Function.comp_def, isEnqueue, hlen]
  · simp [mainEvents, run_workers_events, List.countP_append, List.countP_map,
      Function.comp_def, isSpawn]
  · simp [mainEvents, run_workers_events, List.countP_append, List.countP_map,
      Function.comp_def, isJoin]
  · intro i j e₁ e₂ h₁ h₂
    refine ⟨?_, ?_, ?_⟩
    · intro hb he
      have hmr : mainEvents args ts = ts.map Event.build ++
          (ts.map Event.enqueue ++ run_workers_events (num_workers args)) := by
        simp [mainEvents, List.append_assoc]
      rw [hmr] at h₁ h₂
      have hi := idx_lt_of_pred_absent_right h₁ hb (by
        intro x hx
        rcases List.mem_append.mp hx with hx | hx
        · obtain ⟨t, _, rfl⟩ := List.mem_map.mp hx
          rfl
        · exact (run_workers_events_shape hx).1)
      have hj := idx_ge_of_pred_absent_left h₂ he (by
        intro x hx
        obtain ⟨t, _, rfl⟩ := List.mem_map.mp hx
        rfl)
      exact Nat.lt_of_lt_of_le hi hj
    · intro he hs
      have hi := idx_lt_of_pred_absent_right h₁ he (by
        intro x hx
        exact (run_workers_events_shape hx).2)
      have hj := idx_ge_of_pred_absent_left h₂ hs (by
        intro x hx
        rcases List.mem_append.mp hx with hx | hx <;>
          · obtain ⟨t, _, rfl⟩ := List.mem_map.mp hx
            rfl)
      exact Nat.lt_of_lt_of_le hi hj
    · intro hs hj'
      have hmr : mainEvents args ts = ((ts.map Event.build ++ ts.map Event.enqueue) ++
          (List.range (num_workers args)).map Event.spawnWorker) ++
          (List.range (num_workers args)).map Event.joinWorker := by
        simp [mainEvents, run_workers_events, List.append_assoc]
      rw [hmr] at h₁ h₂
      have hi := idx_lt_of_pred_absent_right h₁ hs (by
        intro x hx
        obtain ⟨t, _, rfl⟩ := List.mem_map.mp hx
        rfl)
      have hj := idx_ge_of_pred_absent_left h₂ hj' (by
        intro x hx
        rcases List.mem_append.mp hx with hx | hx
        · rcases List.mem_append.mp hx with hx | hx <;>
            · obtain ⟨t, _, rfl⟩ := List.mem_map.mp hx
              rfl
        · obtain ⟨t, _, rfl⟩ := List.mem_map.mp hx
          rfl)
      exact Nat.lt_of_lt_of_le hi hj

/-- Witness for C6 at the concrete two-host `run` invocation. -/
theorem C6_dispatcher_order_witness :
    (mainEvents argsEx tsEx).countP isBuild = argsEx.hosts.length :=
  (C6_dispatcher_order argsEx tsEx rfl).1

theorem step_workers_length {α : Type} {r : α → Bool} {s s' : PoolState α}
    {l : PoolLabel α} (h : PoolStep r s l s') :
    s'.workers.length = s.workers.length := by
  cases h <;> simp

theorem trace_workers_length {α : Type} {r : α → Bool} {s s' : PoolState α}
    {ls : List (PoolLabel α)} (h : PoolTrace r s ls s') :
    s'.workers.length = s.workers.length := by
  induction h with
  | refl => rfl
  | step h₁ _ ih => rw [ih, step_workers_length h₁]

theorem step_conservation {α : Type} {r : α → Bool} {s s' : PoolState α}
    {l : PoolLabel α} (h : PoolStep r s l s') :
    s'.executed ++ s'.queue = s.executed ++ s.queue := by
  cases h <;> simp [*]

theorem trace_conservation {α : Type} {r : α → Bool} {s s' : PoolState α}
    {ls : List (PoolLabel α)} (h : PoolTrace r s ls s') :
    s'.executed ++ s'.queue = s.executed ++ s.queue := by
  induction h with
  | refl => rfl
  | step h₁ _ ih => rw [ih, step_conservation h₁]

theorem step_stop_mono {α : Type} {r : α → Bool} {s s' : PoolState α}
    {l : PoolLabel α} (h : PoolStep r s l s') (hs : s.stop = true) :
    s'.stop = true := by
  cases h <;> simp_all

theorem no_begin_after_stop {α : Type} {r : α → Bool} :
    ∀ {s s' : PoolState α} {ls : List (PoolLabel α)}, PoolTrace r s ls s' →
      s.stop = true → ∀ (i : Nat) (t : α), PoolLabel.beginTask i t ∉ ls := by
  intro s s' ls h
  induction h with
  | refl => intro _ i t; simp
  | step h₁ _ ih =>
    intro hs i t hmem
    rcases List.mem_cons.mp hmem with heq | hmem'
    · cases h₁ <;> simp_all
    · exact ih (step_stop_mono h₁ hs) i t hmem'

theorem drain_inv_step {α : Type} {r : α → Bool} {ts : List α}
    {s s' : PoolState α} {l : PoolLabel α}
    (hraise : ∀ t ∈ ts, r t = false)
    (h : PoolStep r s l s') (hl : l ≠ PoolLabel.setStop)
    (hinv : DrainInv ts s) : DrainInv ts s' := by
  obtain ⟨hstop, hcons, hwk, hemp⟩ := hinv
  cases h with
  | seeStop i hi hs => exact absurd hs (by rw [hstop]; simp)
  | seeEmpty i hi hs hq =>
    refine ⟨hstop, hcons, ?_, fun _ => hq⟩
    intro w hw
    rcases List.mem_or_eq_of_mem_set hw with hw' | rfl
    · exact hwk w hw'
    · exact Or.inr rfl
  | execOk i t rest hi hs hq hr =>
    refine ⟨hstop, ?_, hwk, ?_⟩
    · show (s.executed ++ [t]) ++ rest = ts
      rw [← hcons, hq]
      simp
    · intro hmem
      exact absurd (hemp hmem) (by rw [hq]; simp)
  | execRaise i t rest hi hs hq hr =>
    exfalso
    have ht : t ∈ ts := by
      rw [← hcons, hq]
      exact List.mem_append_right _ (List.mem_cons_self _ _)
    rw [hraise t ht] at hr
    cases hr
  | interrupt => exact absurd rfl hl

theorem drain_inv_trace {α : Type} {r : α → Bool} {ts : List α}
    (hraise : ∀ t ∈ ts, r t = false) :
    ∀ {s s' : PoolState α} {ls : List (PoolLabel α)}, PoolTrace r s ls s' →
      PoolLabel.setStop ∉ ls → DrainInv ts s → DrainInv ts s' := by
  intro s s' ls h
  induction h with
  | refl => intro _ hinv; exact hinv
  | step h₁ _ ih =>
    intro hnostop hinv
    have hl : _ ≠ PoolLabel.setStop :=
      fun heq => hnostop (List.mem_cons.mpr (Or.inl heq.symm))
    refine ih ?_ (drain_inv_step hraise h₁ hl hinv)
    intro hmem
    exact hnostop (List.mem_cons.mpr (Or.inr hmem))

theorem cex_step :
    PoolStep (fun b => b) cexInit (PoolLabel.beginTask 0 true) cexFinal :=
  PoolStep.execRaise cexInit 0 true [false] rfl rfl rfl rfl

/-- Counterexample for C2 as stated: one worker, two queued tasks, the first
raises.  The worker thread dies on the exception, the run ends with every
thread finished and the stop flag never set, yet the queue still holds the
second task, which is never executed. -/
theorem C2_drain_queue_counterexample :
    PoolTrace (fun b => b) (initPool [true, false] 1)
      [PoolLabel.beginTask 0 true] cexFinal ∧
    PoolLabel.setStop ∉ ([PoolLabel.beginTask 0 true] : List (PoolLabel Bool)) ∧
    allFinished cexFinal ∧
    cexFinal.queue ≠ [] ∧
    cexFinal.executed ≠ [true, false] := by
  refine ⟨PoolTrace.step cex_step (PoolTrace.refl _), by simp, ?_, ?_, ?_⟩
  · intro w hw
    simp only [cexFinal] at hw
    rcases List.mem_singleton.mp hw with rfl
    simp
  · simp [cexFinal]
  · simp [cexFinal]

/-- C2 (amended): if the stop flag is never set, at least one worker is
started, and no enqueued task raises an exception, then when all workers have
terminated the queue is empty and every enqueued task has been executed, in
queue order. -/
theorem C2_drain_queue (α : Type) (r : α → Bool) (ts : List α) (n : Nat)
    (ls : List (PoolLabel α)) (s : PoolState α)
    (hn : 0 < n)
    (hraise : ∀ t ∈ ts, r t = false)
    (htrace : PoolTrace r (initPool ts n) ls s)
    (hnostop : PoolLabel.setStop ∉ ls)
    (hfin : allFinished s) :
    s.queue = [] ∧ s.executed = ts := by
  have hinv0 : DrainInv ts (initPool ts n) := by
    refine ⟨rfl, by simp [initPool], ?_, ?_⟩
    · intro w hw
      exact Or.inl (List.eq_of_mem_replicate hw)
    · intro hmem
      exact absurd (List.eq_of_mem_replicate hmem) (by simp)
  obtain ⟨hstop, hcons, hwk, hemp⟩ := drain_inv_trace hraise htrace hnostop hinv0
  have hwlen : s.workers.length = n := by
    rw [trace_workers_length htrace]
    simp [initPool]
  have hne : s.workers ≠ [] := by
    intro hc
    rw [hc] at hwlen
    simp at hwlen
    omega
  obtain ⟨w, hw⟩ : ∃ w, w ∈ s.workers := List.exists_mem_of_ne_nil s.workers hne
  have hwem : w = WStatus.finished .sawEmpty := by
    rcases hwk w hw with hrun | hfin'
    · exact absurd hrun (hfin w hw)
    · exact hfin'
  have hq : s.queue = [] := hemp (hwem ▸ hw)
  refine ⟨hq, ?_⟩
  have hc := hcons
  rw [hq] at hc
  simpa using hc

theorem drain_trace :
    PoolTrace (fun b => b) (initPool [false, false] 1)
      [PoolLabel.beginTask 0 false, PoolLabel.beginTask 0 false,
       PoolLabel.exitWorker 0 ExitReason.sawEmpty] drainFinal := by
  refine PoolTrace.step
    (PoolStep.execOk (initPool [false, false] 1) 0 false [false] rfl rfl rfl rfl) ?_
  refine PoolTrace.step (PoolStep.execOk _ 0 false [] rfl rfl rfl rfl) ?_
  exact PoolTrace.step (PoolStep.seeEmpty _ 0 rfl rfl rfl) (PoolTrace.refl _)

/-- Witness for C2 (amended): one worker cleanly drains two non-raising
tasks. -/
theorem C2_drain_queue_witness :
    drainFinal.queue = [] ∧ drainFinal.executed = [false, false] :=
  C2_drain_queue Bool (fun b => b) [false, false] 1
    [PoolLabel.beginTask 0 false, PoolLabel.beginTask 0 false,
     PoolLabel.exitWorker 0 ExitReason.sawEmpty] drainFinal
    (by decide) (by decide) drain_trace (by simp)
    (by
      intro w hw
      simp only [drainFinal] at hw
      rcases List.mem_singleton.mp hw with rfl
      simp)

/-- C3: on the run/get/put path `main` starts
`min(args.threads, len(args.hosts))` worker threads over one task per host,
and the pool size is fixed: every state reachable by the pool transition
relation has exactly that many worker slots. -/
theorem C3_fixed_pool_size (args : Args) (ts : List TaskC) (r : TaskC → Bool)
    (ls : List (PoolLabel TaskC)) (s : PoolState TaskC)
    (hts : get_tasks args = some ts)
    (htrace : PoolTrace r (initPool ts (num_workers args)) ls s) :
    ts.length = args.hosts.length ∧
    s.workers.length = min args.threads args.hosts.length := by
  refine ⟨get_tasks_some_length hts, ?_⟩
  rw [trace_workers_length htrace]
  simp [initPool, num_workers]

/-- Witness for C3 at the concrete two-host `run` invocation. -/
theorem C3_fixed_pool_size_witness :
    tsEx.length = argsEx.hosts.length ∧
    (initPool tsEx (num_workers argsEx)).workers.length =
      min argsEx.threads argsEx.hosts.length :=
  C3_fixed_pool_size argsEx tsEx (fun _ => false) []
    (initPool tsEx (num_workers argsEx)) rfl (PoolTrace.refl _)

/-- Counterexample for C4 as stated ("terminates exactly when the queue is
observed empty or the stop flag is observed set"): a worker also terminates
when its task raises, at a step where the stop flag is unset and the queue is
non-empty. -/
theorem C4_worker_termination_counterexample :
    PoolStep (fun b => b) cexInit (PoolLabel.beginTask 0 true) cexFinal ∧
    cexInit.workers[0]? = some WStatus.running ∧
    cexFinal.workers[0]? = some (WStatus.finished ExitReason.taskRaised) ∧
    cexInit.stop = false ∧
    cexInit.queue ≠ [] :=
  ⟨cex_step, rfl, rfl, rfl, by simp [cexInit]⟩

/-- C4 (amended): a worker terminates only when it observes the stop flag set,
observes the queue empty, or its current task raises; and once the stop flag
is set, no worker begins another task. -/
theorem C4_worker_termination :
    (∀ (α : Type) (r : α → Bool) (s s' : PoolState α) (l : PoolLabel α) (i : Nat),
      PoolStep r s l s' → s.workers[i]? = some WStatus.running →
      s'.workers[i]? ≠ some WStatus.running →
      s.stop = true ∨ s.queue = [] ∨ ∃ t rest, s.queue = t :: rest ∧ r t = true) ∧
    (∀ (α : Type) (r : α → Bool) (s s' : PoolState α) (ls : List (PoolLabel α)),
      PoolTrace r s ls s' → s.stop = true →
      ∀ (i : Nat) (t : α), PoolLabel.beginTask i t ∉ ls) := by
  constructor
  · intro α r s s' l i hstep hrun hnot
    cases hstep with
    | seeStop j hj hs => exact Or.inl hs
    | seeEmpty j hj hs hq => exact Or.inr (Or.inl hq)
    | execOk j t rest hj hs hq hr => exact absurd hrun hnot
    | execRaise j t rest hj hs hq hr => exact Or.inr (Or.inr ⟨t, rest, hq, hr⟩)
    | interrupt => exact absurd hrun hnot
  · intro α r s s' ls htrace hs i t
    exact no_begin_after_stop htrace hs i t

/-- Witness for C4 (amended) at the concrete raising-task step. -/
theorem C4_worker_termination_witness :
    cexInit.stop = true ∨ cexInit.queue = [] ∨
      ∃ t rest, cexInit.queue = t :: rest ∧ (fun b => b) t = true :=
  C4_worker_termination.1 Bool (fun b => b) cexInit cexFinal
    (PoolLabel.beginTask 0 true) 0 cex_step rfl (by simp [cexFinal])

/-- C5: tasks are executed at most once and never re-enqueued: along any pool
execution the executed tasks followed by the still-queued ones are exactly the
initially enqueued list, so (for distinct tasks, as built one per connection)
no task is executed twice, and the queue is always a suffix of the initial
task list. -/
theorem C5_at_most_once (α : Type) (r : α → Bool) (ts : List α) (n : Nat)
    (ls : List (PoolLabel α)) (s : PoolState α)
    (htrace : PoolTrace r (initPool ts n) ls s) :
    s.executed ++ s.queue = ts ∧ (ts.Nodup → s.executed.Nodup) ∧
    s.queue.IsSuffix ts := by
  have hcons : s.executed ++ s.queue = ts := by
    simpa [initPool] using trace_conservation htrace
  refine ⟨hcons, ?_, ⟨s.executed, hcons⟩⟩
  intro hnd
  have hsub : s.executed.Sublist ts := by
    rw [← hcons]
    exact List.sublist_append_left _ _
  exact List.Nodup.sublist hsub hnd

/-- Witness for C5 on the concrete drain of two tasks by one worker. -/
theorem C5_at_most_once_witness :
    drainFinal.executed ++ drainFinal.queue = [false, false] :=
  (C5_at_most_once Bool (fun b => b) [false, false] 1
    [PoolLabel.beginTask 0 false, PoolLabel.beginTask 0 false,
     PoolLabel.exitWorker 0 ExitReason.sawEmpty] drainFinal drain_trace).1

end Kitten
